import Mathlib

/-!
Verification development for the force-monitor backend (TypeScript).

Each definition below is a shallow embedding of a function of the source
tree (file and symbol named in its doc comment).  JavaScript strings are
modelled as `String` (or `List Char` where character-level behaviour
matters), JavaScript numbers as `ℚ` where fractional arithmetic matters
and as `Nat` for timestamps, nullable/undefined values as `Option`, and
thrown exceptions as `Except` with the thrown message.
-/

namespace ForceMonitor

/-- Truthiness of a JavaScript string value that may also be
`null`/`undefined` (`none`): falsy exactly when absent or empty. -/
def jsStrTruthy : Option String → Bool
  | none => false
  | some s => s != ""

/-! ## OrganizationRegistry
Embedding of `backend/src/services/organizationService.ts`,
class `OrganizationService` (Prisma table `userOrganization`).
The database is modelled as the list of its rows, in storage order. -/

/-- One row of the `userOrganization` table, with every column that the
Prisma queries of `organizationService.ts` read or write.
`accessToken` and `refreshToken` hold the *encrypted* secrets
(column values), exactly as stored. -/
structure OrgRow where
  id : String
  userId : String
  name : String
  orgId : String
  instanceUrl : String
  accessToken : String
  refreshToken : Option String
  environment : String
  isActive : Bool
  lastSync : Nat
  createdAt : Nat
  deriving DecidableEq, Repr

/-- The projection selected by `getUserOrganizations` and
`createOrganization` (`select { id, name, orgId, instanceUrl,
environment, isActive, lastSync, createdAt }`): no credential columns. -/
structure OrgMeta where
  id : String
  name : String
  orgId : String
  instanceUrl : String
  environment : String
  isActive : Bool
  lastSync : Nat
  createdAt : Nat
  deriving DecidableEq, Repr

/-- The `select` projection applied to a row. -/
def projectMeta (r : OrgRow) : OrgMeta :=
  { id := r.id, name := r.name, orgId := r.orgId, instanceUrl := r.instanceUrl,
    environment := r.environment, isActive := r.isActive,
    lastSync := r.lastSync, createdAt := r.createdAt }

/-- Insert into a list sorted by `le` (used to model the `orderBy`
clauses of the Prisma queries and the explicit `.sort` call of
`groupDataByGranularity`). -/
def insertLe {α : Type} (le : α → α → Bool) (a : α) : List α → List α
  | [] => [a]
  | b :: bs => if le a b then a :: b :: bs else b :: insertLe le a bs

/-- Insertion sort by a boolean comparison. -/
def sortByLe {α : Type} (le : α → α → Bool) (l : List α) : List α :=
  l.foldr (insertLe le) []

/-- Embedding of `OrganizationService.getUserOrganizations`
(organizationService.ts:121-138): `findMany` over the caller's rows with
the metadata `select` and `orderBy: { createdAt: 'desc' }`. -/
def getUserOrganizations (db : List OrgRow) (userId : String) : List OrgMeta :=
  (sortByLe (fun a b => b.createdAt ≤ a.createdAt)
    (db.filter (fun r => r.userId = userId))).map projectMeta

/-- Embedding of `OrganizationService.getOrganizationById`
(organizationService.ts:140-149): `findFirst` with
`where: { id: orgId, userId }` and **no** `select` clause, so the full
row — encrypted token columns included — is returned. -/
def getOrganizationById (db : List OrgRow) (orgId userId : String) : Option OrgRow :=
  (db.filter (fun r => r.id = orgId ∧ r.userId = userId)).head?

/-- The argument record of `createOrganization` (interface
`CreateOrgData`, organizationService.ts:7-15). -/
structure CreateOrgData where
  userId : String
  name : String
  accessToken : String
  refreshToken : Option String
  instanceUrl : String
  orgId : String
  environment : String
  deriving Repr

/-- Embedding of `OrganizationService.updateOrganizationTokens`
(organizationService.ts:198-228): re-encrypts and overwrites both token
columns of row `rowId`, overwriting `refreshToken` with `null` when the
argument is absent (or empty, which JavaScript treats as falsy).
`enc` stands for `OrganizationService.encrypt` (modelled separately as
`vaultEncrypt`; the registry treats it as an opaque string transform). -/
def updateOrganizationTokens (enc : String → String) (db : List OrgRow)
    (rowId : String) (accessToken : String) (refreshToken : Option String)
    (instanceUrl : String) (now : Nat) : List OrgRow :=
  db.map (fun r =>
    if r.id = rowId then
      { r with
        accessToken := enc accessToken,
        refreshToken := if jsStrTruthy refreshToken
                        then some (enc (refreshToken.getD ""))
                        else none,
        instanceUrl := instanceUrl,
        lastSync := now }
    else r)

/-- Embedding of `OrganizationService.createOrganization`
(organizationService.ts:69-119): `findUnique` on the composite key
`(userId, orgId)`; when a row exists, delegate to
`updateOrganizationTokens` (upsert), otherwise append a fresh row. -/
def createOrganization (enc : String → String) (db : List OrgRow)
    (data : CreateOrgData) (newId : String) (now : Nat) : List OrgRow :=
  match (db.filter (fun r => r.userId = data.userId ∧ r.orgId = data.orgId)).head? with
  | some existing =>
      updateOrganizationTokens enc db existing.id
        data.accessToken data.refreshToken data.instanceUrl now
  | none =>
      db ++ [{ id := newId, userId := data.userId, name := data.name,
               orgId := data.orgId, instanceUrl := data.instanceUrl,
               accessToken := enc data.accessToken,
               refreshToken := if jsStrTruthy data.refreshToken
                               then some (enc (data.refreshToken.getD ""))
                               else none,
               environment := data.environment, isActive := true,
               lastSync := now, createdAt := now }]

/-! ## LimitsFetcher
Embedding of `SalesforceService.getOrgLimits` /
`SalesforceService.refreshAccessToken` (backend salesforceService.ts)
and `OrganizationService.getOrgLimitsWithRetry`
(organizationService.ts:267-312). -/

/-- A response of the remote `/services/data/v62.0/limits` endpoint as
seen by `axios.get`: success with a payload, an authorization failure
(401 invalid/expired session), or any other transport/server error. -/
inductive RemoteResp (Limits : Type) where
  | ok (limits : Limits)
  | authExpired
  | otherError (message : String)

/-- Embedding of `SalesforceService.getOrgLimits` (salesforceService.ts,
Phase-2 version): returns `response.data` on success and wraps **every**
failure — the 401 authorization failure included — into
`new Error('Failed to fetch org limits')`. -/
def getOrgLimits {Limits : Type} (resp : RemoteResp Limits) : Except String Limits :=
  match resp with
  | .ok l => .ok l
  | .authExpired => .error "Failed to fetch org limits"
  | .otherError _ => .error "Failed to fetch org limits"

/-- Substring test, JavaScript `String.prototype.includes`: does
`needle` occur contiguously inside `hay`? -/
def strIncludes (hay needle : List Char) : Bool :=
  match hay with
  | [] => needle.isEmpty
  | _ :: t => needle.isPrefixOf hay || strIncludes t needle

/-- Embedding of the retry predicate of `getOrgLimitsWithRetry`
(organizationService.ts:287):
`error.message?.includes('token') || error.message?.includes('unauthorized')`. -/
def errTriggersRefresh (message : String) : Bool :=
  strIncludes message.toList "token".toList ||
  strIncludes message.toList "unauthorized".toList

/-- The remote behaviour one invocation of `getOrgLimitsWithRetry` can
observe: the response to the initial limits call, the outcome the OAuth
refresh endpoint would produce, and the response to the retried limits
call. -/
structure RemoteEnv (Limits : Type) where
  firstCall : RemoteResp Limits
  refreshOutcome : Except String Unit
  secondCall : RemoteResp Limits

/-- Counters observed during one invocation of
`getOrgLimitsWithRetry`: how many times the refresh endpoint and the
limits endpoint were actually called. -/
structure FetchLog where
  refreshCalls : Nat
  limitsCalls : Nat
  deriving DecidableEq, Repr

/-- Embedding of `OrganizationService.refreshOrganizationToken`
(organizationService.ts:241-265) for an organization that has a refresh
token: one call to `SalesforceService.refreshAccessToken`; any failure is
wrapped into `new Error('Failed to refresh organization token')`. -/
def refreshOrganizationToken {Limits : Type} (env : RemoteEnv Limits) :
    Except String Unit :=
  match env.refreshOutcome with
  | .ok () => .ok ()
  | .error _ => .error "Failed to refresh organization token"

/-- Embedding of `OrganizationService.getOrgLimitsWithRetry`
(organizationService.ts:267-312), for an organization that exists and has
a refresh token; the returned log counts the remote calls performed.
Structure of the source: try the limits call; on an error whose message
satisfies the retry predicate, refresh once and retry once, rethrowing
the *original* error if the refresh or the retry fails; on an error whose
message does not satisfy the predicate, rethrow immediately. -/
def getOrgLimitsWithRetry {Limits : Type} (env : RemoteEnv Limits) :
    Except String Limits × FetchLog :=
  match getOrgLimits env.firstCall with
  | .ok l => (.ok l, ⟨0, 1⟩)
  | .error e =>
      if errTriggersRefresh e then
        match refreshOrganizationToken env with
        | .ok () =>
            match getOrgLimits env.secondCall with
            | .ok l => (.ok l, ⟨1, 2⟩)
            | .error _ => (.error e, ⟨1, 2⟩)
        | .error _ => (.error e, ⟨1, 1⟩)
      else
        (.error e, ⟨0, 1⟩)

/-! ## Scheduler sweep
Embedding of `HistoryService.collectHistoricalData` /
`collectDataForOrganization` (backend historyService.ts). -/

/-- Per-organization collection outcomes of one sweep:
`collect org` is the result of `collectDataForOrganization org`
(fetch limits, extract metrics, insert one history row). -/
def sweepAppends {Org Snap E : Type} (collect : Org → Except E Snap) :
    List Org → List Snap
  | [] => []
  | o :: rest =>
      match collect o with
      | .ok s => s :: sweepAppends collect rest
      | .error _ => sweepAppends collect rest

/-- Embedding of `HistoryService.collectHistoricalData`
(historyService.ts): iterate over the active organizations, running
`collectDataForOrganization` for each inside a `try { } catch` that only
logs, so a per-organization failure never aborts the loop and the sweep
itself returns normally; the value is the list of appended snapshots. -/
def collectHistoricalData {Org Snap E : Type} (activeOrgs : List Org)
    (collect : Org → Except E Snap) : Except E (List Snap) :=
  .ok (sweepAppends collect activeOrgs)

/-! ## Scheduler service
Operational model of `backend/src/services/schedulerService.ts`:
states of one `SchedulerService` instance together with the number of
`collectHistoricalData` executions currently in flight, under an
interleaving of the entry points that can start or finish a sweep. -/

/-- Observable scheduler state: the `isRunning` lifecycle flag, whether
`start()` has registered the hourly cron job, and how many sweep
executions are currently active. -/
structure SchedState where
  isRunning : Bool
  cronRegistered : Bool
  activeSweeps : Nat
  deriving DecidableEq, Repr

/-- Initial state of a freshly constructed `SchedulerService`. -/
def schedInit : SchedState := ⟨false, false, 0⟩

/-- Atomic events of the scheduler model:
`startCall` is a call to `start()` (guarded by `isRunning`,
schedulerService.ts:16-23); `cronTickBegin` is the hourly cron callback
beginning `collectHistoricalData` (ts:26-34, fires only once `start()`
registered the job); `triggerBegin` is `runImmediateDataCollection`
beginning `collectHistoricalData` (ts:107-116 — the source awaits it
unconditionally, with no in-flight check); `sweepEnd` is a sweep
execution finishing. -/
inductive SchedEvent where
  | startCall
  | cronTickBegin
  | triggerBegin
  | sweepEnd
  deriving DecidableEq, Repr

/-- One step of the scheduler model. -/
def schedStep (s : SchedState) : SchedEvent → SchedState
  | .startCall =>
      if s.isRunning then s
      else { s with isRunning := true, cronRegistered := true }
  | .cronTickBegin =>
      if s.cronRegistered then { s with activeSweeps := s.activeSweeps + 1 } else s
  | .triggerBegin => { s with activeSweeps := s.activeSweeps + 1 }
  | .sweepEnd => { s with activeSweeps := s.activeSweeps - 1 }

/-- Run of a sequence of scheduler events from the initial state. -/
def schedRun (events : List SchedEvent) : SchedState :=
  events.foldl schedStep schedInit

/-! ## CredentialVault
Embedding of `OrganizationService.encrypt` / `decrypt`
(organizationService.ts:22-67).  Envelopes are JavaScript strings,
modelled as `List Char`; byte buffers as `List Nat` (each entry < 256).
The `aes-256-gcm` cipher itself belongs to Node's `crypto` library, not
to this repository; it is modelled below (`ksByte`, `authTagBytes`) as a
deterministic authenticated stream cipher exposing exactly the
interface behaviour Node documents: a 32-byte key requirement, hex
decoding that truncates at the first non-hex character, the set of
authentication-tag lengths GCM accepts, and verification of a short tag
against the prefix of the computed tag. -/

/-- The configured key, organizationService.ts:23:
`process.env.ENCRYPTION_KEY || 'fallback-32-character-key-for-dev'`
(the fallback literal is 33 characters long). -/
def fallbackKey : String := "fallback-32-character-key-for-dev"

/-- Key selection with the dev fallback (`envKey` is the
`ENCRYPTION_KEY` environment variable; `none` = unset or empty, which is
falsy in JavaScript). -/
def encryptionKey (envKey : Option String) : String :=
  envKey.getD fallbackKey

/-- The configured key as UTF-8 bytes (keys are ASCII configuration
strings, so bytes coincide with character codes). -/
def configuredKeyBytes (envKey : Option String) : List Nat :=
  (encryptionKey envKey).toList.map Char.toNat

/-- The key material actually handed to the cipher,
organizationService.ts:29 and 55:
`Buffer.from(this.ENCRYPTION_KEY.slice(0, 32), 'utf8')` — the configured
key silently cut to its first 32 characters. -/
def usedKeyBytes (envKey : Option String) : List Nat :=
  ((encryptionKey envKey).toList.take 32).map Char.toNat

/-- Lowercase hex digit for a value < 16 (`Buffer.toString('hex')`). -/
def hexDigitChar (n : Nat) : Char :=
  if n < 10 then Char.ofNat (48 + n) else Char.ofNat (87 + n)

/-- Value of a hex digit character, `none` when the character is not a
hex digit (Node accepts both cases on decoding). -/
def hexDigitVal (c : Char) : Option Nat :=
  if 48 ≤ c.toNat ∧ c.toNat ≤ 57 then some (c.toNat - 48)
  else if 97 ≤ c.toNat ∧ c.toNat ≤ 102 then some (c.toNat - 87)
  else if 65 ≤ c.toNat ∧ c.toNat ≤ 70 then some (c.toNat - 55)
  else none

/-- Hex encoding of a byte buffer (`Buffer.toString('hex')`). -/
def hexEncode : List Nat → List Char
  | [] => []
  | b :: bs => hexDigitChar (b / 16) :: hexDigitChar (b % 16) :: hexEncode bs

/-- Hex decoding with Node's documented semantics
(`Buffer.from(string, 'hex')`): decode two characters at a time and
**truncate at the first character pair that is not valid hex** (an
incomplete trailing pair is likewise dropped) — invalid input yields a
shorter buffer, not an error. -/
def hexDecodeNode : List Char → List Nat
  | c1 :: c2 :: rest =>
      match hexDigitVal c1, hexDigitVal c2 with
      | some h, some l => (16 * h + l) :: hexDecodeNode rest
      | _, _ => []
  | _ => []

/-- JavaScript `String.prototype.split(sep)` for a one-character
separator, on `List Char`. -/
def splitOnChar (sep : Char) : List Char → List (List Char)
  | [] => [[]]
  | c :: rest =>
      if c = sep then [] :: splitOnChar sep rest
      else
        match splitOnChar sep rest with
        | h :: t => (c :: h) :: t
        | [] => [[c]]

/-- Keystream byte `i` of the modelled cipher for a given key and
initialization vector (a deterministic stand-in for the AES-CTR
keystream of aes-256-gcm). -/
def ksByte (key iv : List Nat) (i : Nat) : Nat :=
  (key.sum * 131 + iv.sum * 17 + i * 7 +
    key.getD (i % key.length) 0 + iv.getD (i % iv.length) 0) % 256

/-- XOR a buffer against the keystream starting at index `i`
(encryption and decryption are the same operation). -/
def xorStreamFrom (key iv : List Nat) : Nat → List Nat → List Nat
  | _, [] => []
  | i, b :: bs => (b ^^^ ksByte key iv i) :: xorStreamFrom key iv (i + 1) bs

/-- XOR a whole buffer against the keystream. -/
def xorStream (key iv : List Nat) (bs : List Nat) : List Nat :=
  xorStreamFrom key iv 0 bs

/-- Byte `j` of the modelled 16-byte authentication tag: a fold over the
ciphertext (a deterministic stand-in for GHASH). -/
def tagByte (key iv ct : List Nat) (j : Nat) : Nat :=
  ct.foldl (fun a b => (a * (97 + j) + b) % 256) ((key.sum + 59 * j + iv.sum) % 256)

/-- The full 16-byte authentication tag over key, iv and ciphertext. -/
def authTagBytes (key iv ct : List Nat) : List Nat :=
  (List.range 16).map (tagByte key iv ct)

/-- Authentication-tag lengths Node's GCM accepts when the
`authTagLength` option was not passed to `createDecipheriv`
(128, 120, 112, 104, 96, 64 or 32 bits); a tag shorter than 16 bytes is
verified against the corresponding prefix of the computed tag. -/
def gcmTagLengthOk (n : Nat) : Bool :=
  n = 16 || n = 15 || n = 14 || n = 13 || n = 12 || n = 8 || n = 4

/-- Embedding of `OrganizationService.encrypt`
(organizationService.ts:26-42), parametrised by the 16-byte random `iv`
that `crypto.randomBytes(16)` produced and with the plaintext as its
UTF-8 bytes.  `createCipheriv('aes-256-gcm', …)` rejects key material
that is not exactly 32 bytes; that throw is caught and re-thrown as
`'Failed to encrypt data'`.  The envelope is
`iv.toString('hex') + ':' + authTag.toString('hex') + ':' + encrypted`. -/
def vaultEncrypt (envKey : Option String) (iv : List Nat) (plain : List Nat) :
    Except String (List Char) :=
  let key := usedKeyBytes envKey
  if key.length ≠ 32 then .error "Failed to encrypt data"
  else
    let ct := xorStream key iv plain
    let tag := authTagBytes key iv ct
    .ok (hexEncode iv ++ ':' :: hexEncode tag ++ ':' :: hexEncode ct)

/-- Embedding of `OrganizationService.decrypt`
(organizationService.ts:44-67): split the envelope on `':'`; require
exactly 3 parts; hex-decode iv and tag (Node truncation semantics);
`createDecipheriv` requires a 32-byte key and a non-empty iv;
`setAuthTag`/`final` require a GCM-acceptable tag length and verify the
tag against the (possibly prefix-truncated) computed tag; every failure
on this path is caught and re-thrown as `'Failed to decrypt data'`; the
plaintext bytes are returned only after successful verification. -/
def vaultDecrypt (envKey : Option String) (envelope : List Char) :
    Except String (List Nat) :=
  let parts := splitOnChar ':' envelope
  if parts.length ≠ 3 then .error "Failed to decrypt data"
  else
    let iv := hexDecodeNode (parts.getD 0 [])
    let tag := hexDecodeNode (parts.getD 1 [])
    let key := usedKeyBytes envKey
    if key.length ≠ 32 then .error "Failed to decrypt data"
    else if iv.length = 0 then .error "Failed to decrypt data"
    else if !gcmTagLengthOk tag.length then .error "Failed to decrypt data"
    else
      let ct := hexDecodeNode (parts.getD 2 [])
      if tag = (authTagBytes key iv ct).take tag.length
      then .ok (xorStream key iv ct)
      else .error "Failed to decrypt data"

/-! ## HistoryStore aggregation and trends
Embedding of `HistoryService.getHistoricalData`,
`groupDataByGranularity`, `averageRecords`, `getTrendAnalysis`,
`calculateGrowthRate` and `determineTrend` (backend historyService.ts).
Timestamps are epoch milliseconds (`Nat`); the numeric metric columns of
an `orgLimitHistory` row are modelled uniformly as a map from the field
name to an optional rational (`none` = SQL NULL / JavaScript
`undefined`). -/

/-- The nine extracted metric columns of the `orgLimitHistory` table
(see `HistoryService.extractKeyMetrics`). -/
inductive MetricField where
  | apiRequestsUsed
  | apiRequestsMax
  | dataStorageUsed
  | dataStorageMax
  | fileStorageUsed
  | fileStorageMax
  | apiUsagePercentage
  | dataUsagePercentage
  | fileUsagePercentage
  deriving DecidableEq, Repr

/-- One stored history record (also the shape of an aggregated point:
the JavaScript code reuses plain objects with the same fields; after
day/week aggregation `collectedAt` holds the bucket key). -/
structure HistRecord where
  collectedAt : Nat
  metrics : MetricField → Option ℚ

/-- Milliseconds per UTC day. -/
def msPerDay : Nat := 86400000

/-- The three granularities of `getHistoricalData`. -/
inductive Granularity where
  | hour
  | day
  | week
  deriving DecidableEq, Repr

/-- Day-bucket key: the UTC calendar date of the timestamp, represented
as the day index `t / msPerDay` (the source uses the ISO date string
`date.toISOString().split('T')[0]`; day index and date string are in
order-preserving bijection). -/
def dayKey (t : Nat) : Nat := t / msPerDay

/-- Week-bucket key: the most recent Sunday at or before the timestamp
(epoch day 0, 1970-01-01, was a Thursday, so the weekday index is
`(dayKey t + 4) % 7`).  The source computes this with local-time `Date`
methods; modelled for a server running in UTC. -/
def weekKey (t : Nat) : Nat := dayKey t - (dayKey t + 4) % 7

/-- Bucket key per granularity (the `hour` case never reaches the
grouping code — `groupDataByGranularity` returns early). -/
def bucketKey : Granularity → Nat → Nat
  | .day, t => dayKey t
  | .week, t => weekKey t
  | .hour, t => t

/-- Append a record to its bucket in an insertion-ordered association
list — the behaviour of the JavaScript `Map` + `push` in
`groupDataByGranularity`. -/
def insertGrouped (k : Nat) (r : HistRecord) :
    List (Nat × List HistRecord) → List (Nat × List HistRecord)
  | [] => [(k, [r])]
  | (k', rs) :: rest =>
      if k' = k then (k', rs ++ [r]) :: rest
      else (k', rs) :: insertGrouped k r rest

/-- The grouping `Map` of `groupDataByGranularity` after inserting every
record, as an insertion-ordered association list of buckets. -/
def groupPairs (g : Granularity) (data : List HistRecord) :
    List (Nat × List HistRecord) :=
  data.foldl (fun acc r => insertGrouped (bucketKey g r.collectedAt) r acc) []

/-- Embedding of `HistoryService.averageRecords` (historyService.ts):
every numeric field of the averaged record is the sum of that field over
the bucket **with missing values coerced to 0** (`record.field || 0`),
divided by the total number of records in the bucket; `collectedAt`
becomes the bucket key.  (The `count === 0` guard of the source is
unreachable: buckets are created non-empty.) -/
def averageRecords (records : List HistRecord) (dateKey : Nat) : HistRecord :=
  { collectedAt := dateKey,
    metrics := fun f =>
      some ((records.map (fun r => (r.metrics f).getD 0)).sum / (records.length : ℚ)) }

/-- Embedding of `HistoryService.groupDataByGranularity`
(historyService.ts:473-509): `hour` returns the input unchanged;
otherwise group into buckets, average each bucket, and sort the bucket
records ascending by `new Date(collectedAt).getTime()` (which is the
bucket key scaled by a positive constant, hence ascending by bucket
key). -/
def groupDataByGranularity (data : List HistRecord) (g : Granularity) :
    List HistRecord :=
  match g with
  | .hour => data
  | _ =>
      sortByLe (fun a b => decide (a.collectedAt ≤ b.collectedAt))
        ((groupPairs g data).map (fun p => averageRecords p.2 p.1))

/-- Embedding of `HistoryService.getHistoricalData`
(historyService.ts:444-471): select the records of the last `days` days
(`collectedAt ≥ now − days·msPerDay`), ascending by `collectedAt` (the
Prisma `orderBy`), then group by the requested granularity. -/
def getHistoricalData (store : List HistRecord) (now days : Nat)
    (g : Granularity) : List HistRecord :=
  groupDataByGranularity
    (sortByLe (fun a b => decide (a.collectedAt ≤ b.collectedAt))
      (store.filter (fun r => decide (now - days * msPerDay ≤ r.collectedAt))))
    g

/-- Embedding of `HistoryService.calculateGrowthRate`
(historyService.ts:612-618) on JavaScript number-or-undefined values
(`none` = `undefined`/`null`).  The result `none` models `NaN`, which
arises when `final - initial` subtracts a number from `undefined`:
`if (!initial && !final) return 0` — both falsy (0, null or undefined);
`if (!initial || initial === 0) return final > 0 ? 100 : 0`;
otherwise `((final - initial) / initial) * 100`. -/
def calculateGrowthRate (initial fin : Option ℚ) : Option ℚ :=
  if initial.getD 0 = 0 ∧ fin.getD 0 = 0 then some 0
  else if initial.getD 0 = 0 then some (if 0 < fin.getD 0 then 100 else 0)
  else
    match fin with
    | none => none
    | some fv => some ((fv - initial.getD 0) / initial.getD 0 * 100)

/-- Trend classifications returned by `getTrendAnalysis` (the source
uses the strings `'increasing' | 'decreasing' | 'stable' |
'insufficient_data'`). -/
inductive Trend where
  | increasing
  | decreasing
  | stable
  | insufficientData
  deriving DecidableEq, Repr

/-- Embedding of `HistoryService.determineTrend`
(historyService.ts:620-623): `stable` when `|g| < 5`, else by sign.
A `NaN` growth rate (`none`) fails both comparisons, yielding
`decreasing`. -/
def determineTrend (growthRate : Option ℚ) : Trend :=
  match growthRate with
  | none => .decreasing
  | some g => if |g| < 5 then .stable else if 0 < g then .increasing else .decreasing

/-- Modelled from the spec (4.7 step 4), for comparison with the code:
the growth-rate formula `(last − first) / first × 100` with the special
cases `first = 0 ∧ last = 0 → 0` and `first = 0 ∧ last > 0 → 100`. -/
def specGrowthRate (first last : ℚ) : ℚ :=
  if first = 0 ∧ last = 0 then 0
  else if first = 0 then 100
  else (last - first) / first * 100

/-- Modelled from the spec (4.7 step 4), for comparison with the code:
`stable` when `|growthRate| < 5`, else `increasing` when positive,
`decreasing` when negative. -/
def specTrend (g : ℚ) : Trend :=
  if |g| < 5 then .stable else if 0 < g then .increasing else .decreasing

/-- The three tracked headline metrics of the trend analysis. -/
inductive PctField where
  | api
  | dat
  | file
  deriving DecidableEq, Repr

/-- The usage-percentage column each tracked metric reads. -/
def pctMetric : PctField → MetricField
  | .api => .apiUsagePercentage
  | .dat => .dataUsagePercentage
  | .file => .fileUsagePercentage

/-- Result shape of `getTrendAnalysis`: a classification and a growth
rate per tracked metric. -/
structure TrendAnalysis where
  trend : PctField → Trend
  growthRate : PctField → Option ℚ

/-- Placeholder record (never observable: it is only read under a
series-length bound that guarantees the series is non-empty). -/
def defaultRecord : HistRecord := { collectedAt := 0, metrics := fun _ => none }

/-- First half of the `HistoryService.getTrendAnalysis` embedding
(historyService.ts:560-568): fetch the day-granularity series; if it has
fewer than 2 points fall back to the hour-granularity series over
`min(days, 7)` days. -/
def trendSeries (store : List HistRecord) (now days : Nat) : List HistRecord :=
  let daily := getHistoricalData store now days .day
  if daily.length < 2
  then getHistoricalData store now (min days 7) .hour
  else daily

/-- Continuation of the `getTrendAnalysis` embedding
(historyService.ts:570-605): the insufficient-data result, or the
per-metric growth rates and classifications from the first and last
record of the analysed series. -/
def getTrendAnalysis (store : List HistRecord) (now days : Nat) : TrendAnalysis :=
  let series := trendSeries store now days
  if series.length < 2 then
    { trend := fun _ => .insufficientData, growthRate := fun _ => some 0 }
  else
    let firstRecord := series.headD defaultRecord
    let lastRecord := series.getLastD defaultRecord
    { trend := fun f =>
        determineTrend (calculateGrowthRate
          (firstRecord.metrics (pctMetric f)) (lastRecord.metrics (pctMetric f))),
      growthRate := fun f =>
        calculateGrowthRate
          (firstRecord.metrics (pctMetric f)) (lastRecord.metrics (pctMetric f)) }

/-! ## Concrete instances used by witnesses and counterexamples -/

/-- Discriminator for `Except` (a thrown vs. normal JavaScript return). -/
def exceptOk {E A : Type} : Except E A → Bool
  | .ok _ => true
  | .error _ => false

/-- A syntactically valid but over-long (40-character) configured
encryption key. -/
def c4key : String := "0123456789abcdef0123456789abcdef01234567"

/-- A stored organization row with encrypted credentials, owned by user
`u1`. -/
def c9row : OrgRow :=
  { id := "o1", userId := "u1", name := "Acme Prod", orgId := "00Dxx0000001",
    instanceUrl := "https://acme.example.com", accessToken := "enc-access-secret",
    refreshToken := some "enc-refresh-secret", environment := "production",
    isActive := true, lastSync := 1700000000000, createdAt := 1690000000000 }

/-- The row `getOrganizationById` returns for `c9row`'s owner. -/
def c9fetched : OrgRow := (getOrganizationById [c9row] "o1" "u1").getD c9row

/-- A concrete stand-in for `OrganizationService.encrypt` as an opaque
string transform. -/
def c10enc : String → String := fun s => String.append "enc-" s

/-- An existing connected organization that has a stored refresh
secret. -/
def c10row : OrgRow :=
  { id := "o1", userId := "u1", name := "Acme Prod", orgId := "00Dxx0000001",
    instanceUrl := "https://a.example.com", accessToken := "enc-oldAccess",
    refreshToken := some "enc-oldRefresh", environment := "production",
    isActive := true, lastSync := 0, createdAt := 0 }

/-- A reconnection of the same `(userId, orgId)` pair that supplies no
refresh secret. -/
def c10data : CreateOrgData :=
  { userId := "u1", name := "Acme Prod", accessToken := "newAccess",
    refreshToken := none, instanceUrl := "https://b.example.com",
    orgId := "00Dxx0000001", environment := "production" }

/-- The database after the reconnecting `createOrganization` call. -/
def c10result : List OrgRow := createOrganization c10enc [c10row] c10data "unused" 7

/-- The (single) row of `c10result`. -/
def c10updated : OrgRow := c10result.headD c10row

/-- The per-organization collection outcome of a concrete 3-tenant
sweep in which organization `2` always throws. -/
def c3collect : Nat → Except String Nat :=
  fun n => if n = 2 then .error "org 2 is broken" else .ok n

/-- A concrete 16-byte initialization vector (as `crypto.randomBytes(16)`
would produce). -/
def c6iv : List Nat := List.range 16

/-- A concrete plaintext (the UTF-8 bytes of `"hi"`). -/
def c6plain : List Nat := [104, 105]

/-- The envelope produced by encrypting `c6plain` under the dev fallback
key with iv `c6iv`. -/
def c6envelope : List Char :=
  match vaultEncrypt none c6iv c6plain with
  | .ok l => l
  | .error _ => []

/-- Flip the bits of `mask` in character `i` of a string. -/
def flipCharBit (s : List Char) (i mask : Nat) : List Char :=
  s.set i (Char.ofNat ((s.getD i ' ').toNat ^^^ mask))

/-- A second concrete iv for the tamper counterexample. -/
def c5iv : List Nat := (List.range 16).map (fun i => (7 * i + 3) % 256)

/-- Plaintext for the tamper counterexample (UTF-8 bytes of `"ok"`). -/
def c5plain : List Nat := [111, 107]

/-- A valid envelope produced by `encrypt`. -/
def c5envelope : List Char :=
  match vaultEncrypt none c5iv c5plain with
  | .ok l => l
  | .error _ => []

/-- `c5envelope` with one bit (mask 0x40) flipped in character 64 — the
last hex character of the authentication-tag segment (the iv occupies
characters 0-31, the first `':'` is character 32, the tag occupies
characters 33-64). -/
def c5flipped : List Char := flipCharBit c5envelope 64 64

/-- A history snapshot carrying only the `apiUsagePercentage` metric. -/
def c7snap (t : Nat) (v : Option ℚ) : HistRecord :=
  { collectedAt := t,
    metrics := fun f => if f = MetricField.apiUsagePercentage then v else none }

/-- Two same-UTC-day snapshots: one has `apiUsagePercentage = 10`, the
other is missing the field. -/
def c7pair : List HistRecord := [c7snap 1000 (some 10), c7snap 2000 none]

/-- Three same-UTC-day snapshots with `apiUsagePercentage` values
10, 20, 30. -/
def c7triple : List HistRecord :=
  [c7snap 1000 (some 10), c7snap 2000 (some 20), c7snap 3000 (some 30)]

/-- The single day-aggregated point of `c7triple`. -/
def c7point : HistRecord := (groupDataByGranularity c7triple .day).headD defaultRecord

/-- A store with two same-UTC-day snapshots one hour apart whose
`apiUsagePercentage` goes from 50 to 75 (the single day bucket forces
the trend analysis onto its hour-granularity fallback series). -/
def c8store : List HistRecord := [c7snap 0 (some 50), c7snap 3600000 (some 75)]

/-! ## Shared helper lemmas -/

/-- Inserting with `insertLe` permutes to consing. -/
theorem insertLe_perm {α : Type} (le : α → α → Bool) (a : α) (l : List α) :
    List.Perm (insertLe le a l) (a :: l) := by
  induction l with
  | nil => exact List.Perm.refl _
  | cons b bs ih =>
      by_cases h : le a b
      · simp [insertLe, h]
      · simp only [insertLe, h, if_false]
        exact ((ih.cons b).trans (List.Perm.swap a b bs))

/-- `sortByLe` permutes its input. -/
theorem sortByLe_perm {α : Type} (le : α → α → Bool) (l : List α) :
    List.Perm (sortByLe le l) l := by
  induction l with
  | nil => exact List.Perm.refl _
  | cons a as ih =>
      exact (insertLe_perm le a (sortByLe le as)).trans (ih.cons a)

/-- `sweepAppends` distributes over list append. -/
theorem sweepAppends_append {Org Snap E : Type} (collect : Org → Except E Snap)
    (l1 l2 : List Org) :
    sweepAppends collect (l1 ++ l2) =
      sweepAppends collect l1 ++ sweepAppends collect l2 := by
  induction l1 with
  | nil => simp [sweepAppends]
  | cons o rest ih =>
      cases hc : collect o <;> simp [sweepAppends, hc, ih]

/-- When every organization of the list collects successfully, one
snapshot is appended per organization. -/
theorem sweepAppends_length_all_ok {Org Snap E : Type}
    (collect : Org → Except E Snap) (l : List Org)
    (h : ∀ o ∈ l, exceptOk (collect o) = true) :
    (sweepAppends collect l).length = l.length := by
  induction l with
  | nil => rfl
  | cons o rest ih =>
      cases hc : collect o with
      | ok s =>
          simp only [sweepAppends, hc, List.length_cons]
          exact congrArg (· + 1) (ih (fun x hx => h x (List.mem_cons_of_mem o hx)))
      | error e =>
          have := h o (List.mem_cons_self o rest)
          rw [hc] at this
          simp [exceptOk] at this

/-- A failing organization appends nothing. -/
theorem sweepAppends_cons_err {Org Snap E : Type}
    (collect : Org → Except E Snap) (bad : Org) (l : List Org)
    (h : exceptOk (collect bad) = false) :
    sweepAppends collect (bad :: l) = sweepAppends collect l := by
  cases hc : collect bad with
  | ok s => rw [hc] at h; simp [exceptOk] at h
  | error e => simp [sweepAppends, hc]

/-! ## C1 — refresh-on-expiry protocol -/

/-- C1 (code bug): when the remote limits call signals an authorization
failure, `SalesforceService.getOrgLimits` wraps it into the message
`'Failed to fetch org limits'`, which satisfies neither
`includes('token')` nor `includes('unauthorized')`, so
`getOrgLimitsWithRetry` rethrows immediately: **zero** refresh calls and
no retried fetch ever happen, whatever the refresh endpoint and the
retry would have returned — contradicting the claimed
one-refresh-one-retry protocol. -/
theorem authExpiredFetch_performs_no_refresh {Limits : Type}
    (refreshOutcome : Except String Unit) (secondCall : RemoteResp Limits) :
    errTriggersRefresh "Failed to fetch org limits" = false ∧
    getOrgLimitsWithRetry
        { firstCall := .authExpired, refreshOutcome := refreshOutcome,
          secondCall := secondCall } =
      (.error "Failed to fetch org limits", { refreshCalls := 0, limitsCalls := 1 }) := by
  have h : errTriggersRefresh "Failed to fetch org limits" = false := by decide
  constructor
  · exact h
  · simp [getOrgLimitsWithRetry, getOrgLimits, h]

/-! ## C2 — sweep overlap -/

/-- C2 (counterexample): after `start()` and an hourly cron tick one
sweep is in flight; invoking the on-demand trigger at that point raises
the number of concurrently active sweeps to 2, so it is false that the
trigger never starts a second concurrent sweep. -/
theorem triggerNow_during_sweep_starts_second_sweep :
    (schedRun [.startCall, .cronTickBegin]).activeSweeps = 1 ∧
    (schedRun [.startCall, .cronTickBegin, .triggerBegin]).activeSweeps = 2 := by
  decide

/-- C2 (amended): `runImmediateDataCollection` performs no overlap
check — from **every** scheduler state, the on-demand trigger starts one
more concurrent sweep, even when sweeps are already in flight; the
`isRunning` flag only makes a repeated `start()` call a no-op (it guards
the service lifecycle, not sweep execution). -/
theorem scheduler_sweep_overlap_unguarded (s : SchedState) :
    (schedStep s .triggerBegin).activeSweeps = s.activeSweeps + 1 ∧
    (s.isRunning = true → schedStep s .startCall = s) := by
  constructor
  · rfl
  · intro h
    simp [schedStep, h]

/-- Witness for `scheduler_sweep_overlap_unguarded` at a state with one
sweep already active. -/
theorem scheduler_sweep_overlap_unguarded_witness :
    (schedStep ⟨true, true, 1⟩ .triggerBegin).activeSweeps = 1 + 1 ∧
    schedStep ⟨true, true, 1⟩ .startCall = ⟨true, true, 1⟩ :=
  ⟨(scheduler_sweep_overlap_unguarded ⟨true, true, 1⟩).1,
   (scheduler_sweep_overlap_unguarded ⟨true, true, 1⟩).2 rfl⟩

/-! ## C3 — per-tenant failure isolation -/

/-- C3: a sweep over `N` organizations in which one interior
organization (`1 < k < N`, here the organization `bad` between the
non-empty prefix `pre` and the non-empty suffix `post`) throws on its
collection call appends exactly `N − 1` snapshots — one per non-failing
organization — and `collectHistoricalData` completes without raising. -/
theorem sweep_isolates_failing_org {Org Snap E : Type}
    (collect : Org → Except E Snap) (pre post : List Org) (bad : Org)
    (hpre : ∀ o ∈ pre, exceptOk (collect o) = true)
    (hbad : exceptOk (collect bad) = false)
    (hpost : ∀ o ∈ post, exceptOk (collect o) = true)
    (hlen1 : 1 ≤ pre.length) (hlen2 : 1 ≤ post.length) :
    ∃ snaps, collectHistoricalData (pre ++ bad :: post) collect = .ok snaps ∧
      snaps.length = (pre ++ bad :: post).length - 1 := by
  refine ⟨sweepAppends collect (pre ++ bad :: post), rfl, ?_⟩
  rw [sweepAppends_append, sweepAppends_cons_err collect bad post hbad]
  simp only [List.length_append, List.length_cons,
    sweepAppends_length_all_ok collect pre hpre,
    sweepAppends_length_all_ok collect post hpost]
  omega

/-- Witness for `sweep_isolates_failing_org`: three organizations, the
middle one broken, two snapshots appended. -/
theorem sweep_isolates_failing_org_witness :
    (sweepAppends c3collect ([1] ++ 2 :: [3])).length =
      (([1] ++ 2 :: [3] : List Nat)).length - 1 := by
  obtain ⟨snaps, h1, h2⟩ :=
    sweep_isolates_failing_org c3collect [1] [3] 2
      (by decide) (by decide) (by decide) (by decide) (by decide)
  simp only [collectHistoricalData, Except.ok.injEq] at h1
  rw [h1]
  exact h2

/-! ## C4 — encryption key length handling -/

/-- C4 (counterexample): with a 40-character configured key there is no
startup failure — `encrypt` proceeds — and the key material the cipher
runs with is the 32-character truncation of the configured key, not the
configured key itself: the code silently truncates instead of failing
fast. -/
theorem long_key_accepted_and_truncated :
    (encryptionKey (some c4key)).length = 40 ∧
    exceptOk (vaultEncrypt (some c4key) (List.range 16) [104, 105]) = true ∧
    (usedKeyBytes (some c4key)).length = 32 ∧
    usedKeyBytes (some c4key) ≠ configuredKeyBytes (some c4key) := by
  decide

/-- C4 (amended): the key handed to the cipher is always the first 32
bytes of whatever key is configured (`ENCRYPTION_KEY.slice(0, 32)`) —
silent truncation with no startup validation; in particular any
configured key of length ≥ 32 yields key material of exactly the
cipher's required 32 bytes without any error being raised. -/
theorem encryption_key_truncated_to_32 (envKey : Option String) :
    usedKeyBytes envKey = (configuredKeyBytes envKey).take 32 ∧
    (32 ≤ (encryptionKey envKey).toList.length → (usedKeyBytes envKey).length = 32) := by
  constructor
  · simp [usedKeyBytes, configuredKeyBytes, List.map_take]
  · intro h
    simp only [usedKeyBytes, List.length_map, List.length_take]
    omega

/-- Witness for `encryption_key_truncated_to_32` at the 40-character
key. -/
theorem encryption_key_truncated_to_32_witness :
    usedKeyBytes (some c4key) = (configuredKeyBytes (some c4key)).take 32 ∧
    (usedKeyBytes (some c4key)).length = 32 :=
  ⟨(encryption_key_truncated_to_32 (some c4key)).1,
   (encryption_key_truncated_to_32 (some c4key)).2 (by decide)⟩

/-! ## C9 — owner scoping and credential exposure -/

/-- C9 (counterexample): `getOrganizationById` selects the **full** row,
so even for the legitimate owner the returned value carries the
encrypted access and refresh secrets — the claim that the returned value
contains no credential fields is false. -/
theorem getOrganizationById_exposes_encrypted_credentials :
    (getOrganizationById [c9row] "o1" "u1").map OrgRow.accessToken =
      some "enc-access-secret" ∧
    (getOrganizationById [c9row] "o1" "u1").map OrgRow.refreshToken =
      some (some "enc-refresh-secret") := by
  decide

/-- C9 (amended): owner scoping does hold — `getOrganizationById`
returns a row only when its `id` and `userId` match the caller, and
every record `getUserOrganizations` returns is the credential-free
metadata projection of one of the caller's own rows; but the
single-record read returns the whole row, encrypted credentials
included (shown by the counterexample), rather than metadata only. -/
theorem organization_reads_owner_scoped (db : List OrgRow) (orgId userId : String) :
    (∀ r, getOrganizationById db orgId userId = some r →
       r.id = orgId ∧ r.userId = userId) ∧
    (∀ m ∈ getUserOrganizations db userId,
       ∃ row ∈ db, row.userId = userId ∧ m = projectMeta row) := by
  constructor
  · intro r h
    have hr : r ∈ db.filter (fun x => decide (x.id = orgId ∧ x.userId = userId)) := by
      unfold getOrganizationById at h
      exact List.mem_of_mem_head? (Option.mem_def.mpr h)
    have := (List.mem_filter.mp hr).2
    simpa using this
  · intro m hm
    unfold getUserOrganizations at hm
    rcases List.mem_map.mp hm with ⟨row, hrow, rfl⟩
    have hrow2 : row ∈ db.filter (fun r => decide (r.userId = userId)) :=
      (sortByLe_perm _ _).mem_iff.mp hrow
    have hd := List.mem_filter.mp hrow2
    exact ⟨row, hd.1, by simpa using hd.2, rfl⟩

/-- Witness for `organization_reads_owner_scoped`: the row fetched for
`c9row`'s owner carries the requested id and that owner. -/
theorem organization_reads_owner_scoped_witness :
    c9fetched.id = "o1" ∧ c9fetched.userId = "u1" :=
  (organization_reads_owner_scoped [c9row] "o1" "u1").1 c9fetched (by decide)

/-! ## C10 — reconnection without a refresh secret -/

/-- C10: when `createOrganization` is called for an `(ownerId,
externalId)` pair that already has a stored row `R` (found by the
unique-key lookup) and the call supplies no refresh secret, the upsert
path overwrites the stored encrypted refresh secret with `null` — the
previous refresh secret is erased, while the access secret is replaced
by the newly encrypted one. -/
theorem create_existing_org_erases_refresh_secret (enc : String → String)
    (db : List OrgRow) (dat : CreateOrgData) (newId : String) (now : Nat)
    (R : OrgRow)
    (hfound : (db.filter (fun r => r.userId = dat.userId ∧ r.orgId = dat.orgId)).head? =
      some R)
    (_hprev : R.refreshToken ≠ none)
    (hnone : dat.refreshToken = none) :
    ∀ r' ∈ createOrganization enc db dat newId now,
      r'.id = R.id → r'.refreshToken = none ∧ r'.accessToken = enc dat.accessToken := by
  intro r' hr' hid
  simp only [createOrganization, hfound] at hr'
  unfold updateOrganizationTokens at hr'
  rcases List.mem_map.mp hr' with ⟨r, hr, rfl⟩
  by_cases h : r.id = R.id
  · simp [h, hnone, jsStrTruthy]
  · rw [if_neg h] at hid ⊢
    exact absurd hid h

/-- Witness for `create_existing_org_erases_refresh_secret`: after
reconnecting `c10row`'s organization with no refresh secret, the stored
refresh secret is `null` and the access secret is the re-encrypted new
one. -/
theorem create_existing_org_erases_refresh_secret_witness :
    c10updated.refreshToken = none ∧ c10updated.accessToken = "enc-newAccess" := by
  have h := create_existing_org_erases_refresh_secret c10enc [c10row] c10data
    "unused" 7 c10row (by decide) (by decide) rfl c10updated (by decide) (by decide)
  exact ⟨h.1, by rw [h.2]; rfl⟩

/-! ## Vault lemmas -/

/-- Encoding then decoding a hex digit is the identity. -/
theorem hexDigitVal_hexDigitChar {n : Nat} (h : n < 16) :
    hexDigitVal (hexDigitChar n) = some n := by
  interval_cases n <;> decide

/-- Hex digit characters are never the `':'` separator. -/
theorem hexDigitChar_ne_colon {n : Nat} (h : n < 16) : hexDigitChar n ≠ ':' := by
  interval_cases n <;> decide

/-- Hex encodings of byte buffers contain no `':'`. -/
theorem mem_hexEncode_ne_colon {bs : List Nat} (h : ∀ b ∈ bs, b < 256) :
    ∀ c ∈ hexEncode bs, c ≠ ':' := by
  induction bs with
  | nil => intro c hc; simp [hexEncode] at hc
  | cons b rest ih =>
      intro c hc
      have hb := h b (List.mem_cons_self b rest)
      simp only [hexEncode, List.mem_cons] at hc
      rcases hc with rfl | hc
      · exact hexDigitChar_ne_colon (by omega)
      · rcases hc with rfl | hc
        · exact hexDigitChar_ne_colon (by omega)
        · exact ih (fun x hx => h x (List.mem_cons_of_mem b hx)) c hc

/-- Hex decoding inverts hex encoding on byte buffers. -/
theorem hexDecodeNode_hexEncode {bs : List Nat} (h : ∀ b ∈ bs, b < 256) :
    hexDecodeNode (hexEncode bs) = bs := by
  induction bs with
  | nil => rfl
  | cons b rest ih =>
      have hb := h b (List.mem_cons_self b rest)
      have h1 : hexDigitVal (hexDigitChar (b / 16)) = some (b / 16) :=
        hexDigitVal_hexDigitChar (by omega)
      have h2 : hexDigitVal (hexDigitChar (b % 16)) = some (b % 16) :=
        hexDigitVal_hexDigitChar (by omega)
      simp only [hexEncode, hexDecodeNode, h1, h2]
      rw [ih (fun x hx => h x (List.mem_cons_of_mem b hx))]
      congr 1
      omega

/-- `splitOnChar` always returns at least one part. -/
theorem splitOnChar_ne_nil (sep : Char) (l : List Char) : splitOnChar sep l ≠ [] := by
  induction l with
  | nil => simp [splitOnChar]
  | cons c rest ih =>
      by_cases h : c = sep
      · simp [splitOnChar, h]
      · simp only [splitOnChar, if_neg h]
        cases hr : splitOnChar sep rest with
        | nil => exact absurd hr ih
        | cons a t => simp

/-- A separator-free string splits into itself alone. -/
theorem splitOnChar_no_sep (sep : Char) (l : List Char) (h : ∀ c ∈ l, c ≠ sep) :
    splitOnChar sep l = [l] := by
  induction l with
  | nil => rfl
  | cons c rest ih =>
      have hc : c ≠ sep := h c (List.mem_cons_self c rest)
      have ih2 := ih (fun x hx => h x (List.mem_cons_of_mem c hx))
      simp only [splitOnChar, if_neg hc, ih2]

/-- Splitting at the first separator after a separator-free prefix. -/
theorem splitOnChar_append (sep : Char) (a b : List Char)
    (ha : ∀ c ∈ a, c ≠ sep) :
    splitOnChar sep (a ++ sep :: b) = a :: splitOnChar sep b := by
  induction a with
  | nil => simp [splitOnChar]
  | cons c rest ih =>
      have hc : c ≠ sep := ha c (List.mem_cons_self c rest)
      have ih2 := ih (fun x hx => ha x (List.mem_cons_of_mem c hx))
      simp only [List.cons_append, splitOnChar, if_neg hc, List.append_eq, ih2]

/-- XORing against the keystream twice is the identity. -/
theorem xorStreamFrom_involutive (key iv : List Nat) (i : Nat) (bs : List Nat) :
    xorStreamFrom key iv i (xorStreamFrom key iv i bs) = bs := by
  induction bs generalizing i with
  | nil => rfl
  | cons b rest ih =>
      simp only [xorStreamFrom]
      rw [Nat.xor_assoc, Nat.xor_self, Nat.xor_zero, ih]

/-- Keystream bytes are bytes. -/
theorem ksByte_lt (key iv : List Nat) (i : Nat) : ksByte key iv i < 256 :=
  Nat.mod_lt _ (by norm_num)

/-- XORing a byte buffer against the keystream yields a byte buffer. -/
theorem xorStreamFrom_lt (key iv : List Nat) (i : Nat) (bs : List Nat)
    (h : ∀ b ∈ bs, b < 256) : ∀ b ∈ xorStreamFrom key iv i bs, b < 256 := by
  induction bs generalizing i with
  | nil => intro b hb; simp [xorStreamFrom] at hb
  | cons x rest ih =>
      intro b hb
      simp only [xorStreamFrom, List.mem_cons] at hb
      rcases hb with rfl | hb
      · have h1 : x < 2 ^ 8 := h x (List.mem_cons_self x rest)
        have h2 : ksByte key iv i < 2 ^ 8 := ksByte_lt key iv i
        calc x ^^^ ksByte key iv i < 2 ^ 8 := Nat.xor_lt_two_pow h1 h2
          _ = 256 := by norm_num
      · exact ih (i + 1) (fun y hy => h y (List.mem_cons_of_mem x hy)) b hb

/-- The tag fold keeps values below 256. -/
theorem tagFold_lt (j : Nat) (ct : List Nat) (init : Nat) (h : init < 256) :
    ct.foldl (fun a b => (a * (97 + j) + b) % 256) init < 256 := by
  induction ct generalizing init with
  | nil => simpa using h
  | cons x rest ih => exact ih _ (Nat.mod_lt _ (by norm_num))

/-- Authentication-tag bytes are bytes. -/
theorem authTagBytes_lt (key iv ct : List Nat) :
    ∀ t ∈ authTagBytes key iv ct, t < 256 := by
  intro t ht
  simp only [authTagBytes, List.mem_map] at ht
  rcases ht with ⟨j, _hj, rfl⟩
  unfold tagByte
  exact tagFold_lt j ct _ (Nat.mod_lt _ (by norm_num))

/-- The computed authentication tag is 16 bytes long. -/
theorem authTagBytes_length (key iv ct : List Nat) :
    (authTagBytes key iv ct).length = 16 := by
  simp [authTagBytes]

/-! ## C6 — decrypt inverts encrypt -/

/-- C6: for every plaintext (as its UTF-8 bytes) and every 16-byte
initialization vector chosen during encryption, under a configured key
whose cipher material has the required 32 bytes, decrypting the envelope
produced by `encrypt` returns exactly the plaintext. -/
theorem decrypt_encrypt_roundtrip (envKey : Option String) (iv plain : List Nat)
    (hkey : (usedKeyBytes envKey).length = 32)
    (hivlen : iv.length = 16) (hivb : ∀ b ∈ iv, b < 256)
    (hp : ∀ b ∈ plain, b < 256) :
    ∃ envl, vaultEncrypt envKey iv plain = .ok envl ∧
      vaultDecrypt envKey envl = .ok plain := by
  have hctb : ∀ b ∈ xorStream (usedKeyBytes envKey) iv plain, b < 256 :=
    xorStreamFrom_lt _ iv 0 plain hp
  have htagb := authTagBytes_lt (usedKeyBytes envKey) iv
    (xorStream (usedKeyBytes envKey) iv plain)
  refine ⟨hexEncode iv ++ ':' ::
      hexEncode (authTagBytes (usedKeyBytes envKey) iv
        (xorStream (usedKeyBytes envKey) iv plain)) ++ ':' ::
      hexEncode (xorStream (usedKeyBytes envKey) iv plain), ?_, ?_⟩
  · unfold vaultEncrypt
    rw [if_neg (by rw [hkey]; norm_num)]
  · have hparts :
        splitOnChar ':' (hexEncode iv ++ ':' ::
            hexEncode (authTagBytes (usedKeyBytes envKey) iv
              (xorStream (usedKeyBytes envKey) iv plain)) ++ ':' ::
            hexEncode (xorStream (usedKeyBytes envKey) iv plain)) =
          [hexEncode iv,
           hexEncode (authTagBytes (usedKeyBytes envKey) iv
             (xorStream (usedKeyBytes envKey) iv plain)),
           hexEncode (xorStream (usedKeyBytes envKey) iv plain)] := by
      rw [List.append_assoc, List.cons_append,
        splitOnChar_append ':' _ _ (mem_hexEncode_ne_colon hivb),
        splitOnChar_append ':' _ _ (mem_hexEncode_ne_colon htagb),
        splitOnChar_no_sep ':' _ (mem_hexEncode_ne_colon hctb)]
    unfold vaultDecrypt
    rw [hparts]
    simp only [List.length_cons, List.length_nil, List.getD_cons_zero,
      List.getD_cons_succ,
      hexDecodeNode_hexEncode hivb, hexDecodeNode_hexEncode htagb,
      hexDecodeNode_hexEncode hctb]
    rw [if_neg (by norm_num), if_neg (by rw [hkey]; norm_num),
      if_neg (by rw [hivlen]; norm_num),
      if_neg (by rw [authTagBytes_length]; decide),
      if_pos (Eq.symm (List.take_length _))]
    simp only [xorStream, xorStreamFrom_involutive]

/-- Witness for `decrypt_encrypt_roundtrip`: the concrete envelope
`c6envelope` decrypts back to `c6plain` under the dev fallback key. -/
theorem decrypt_encrypt_roundtrip_witness :
    vaultDecrypt none c6envelope = .ok c6plain := by
  obtain ⟨e, he, hd⟩ := decrypt_encrypt_roundtrip none c6iv c6plain
    (by decide) (by decide) (by decide) (by decide)
  have : c6envelope = e := by
    simp only [c6envelope, he]
  rw [this]
  exact hd

/-! ## C5 — decrypt rejects malformed and tampered envelopes -/

/-- C5 (counterexample): `c5envelope` is a valid envelope for `c5plain`;
`c5flipped` differs from it in exactly one bit (mask 0x40) of character
64, the last hex character of the authentication-tag segment (the
separators sit at characters 32 and 65).  Because Node's hex decoding
truncates at the first invalid character, the flipped tag decodes to the
first 15 bytes of the true tag — a length GCM accepts — and
verification against the truncated computed tag succeeds: `decrypt`
returns the plaintext instead of raising, so a single-bit flip in the
tag does **not** always make `decrypt` fail. -/
theorem flipped_tag_bit_still_decrypts :
    vaultDecrypt none c5envelope = .ok c5plain ∧
    c5flipped = flipCharBit c5envelope 64 64 ∧
    c5flipped.length = c5envelope.length ∧
    c5envelope.getD 32 ' ' = ':' ∧
    c5envelope.getD 65 ' ' = ':' ∧
    (c5envelope.getD 64 ' ').toNat ^^^ (c5flipped.getD 64 ' ').toNat = 64 ∧
    c5flipped ≠ c5envelope ∧
    vaultDecrypt none c5flipped = .ok c5plain := by
  refine ⟨rfl, rfl, rfl, rfl, rfl, rfl, by decide, rfl⟩

/-- C5 (amended): `decrypt` raises `DecryptionError` whenever the
envelope does not split into exactly three `':'`-separated parts, and it
returns a plaintext only when the decoded tag has a GCM-acceptable
length and verifies against the (possibly prefix-truncated) computed tag
of the decoded ciphertext — any envelope failing those checks raises;
the returned plaintext is always the keystream decryption of the decoded
ciphertext.  (Per the counterexample, a bit flip that makes the final
tag character invalid hex eludes these checks by shortening the decoded
tag, so the original claim's universal tamper detection fails.) -/
theorem decrypt_rejects_malformed (envKey : Option String) (s : List Char) :
    ((splitOnChar ':' s).length ≠ 3 →
       vaultDecrypt envKey s = .error "Failed to decrypt data") ∧
    (∀ pt, vaultDecrypt envKey s = .ok pt →
       (splitOnChar ':' s).length = 3 ∧
       gcmTagLengthOk (hexDecodeNode ((splitOnChar ':' s).getD 1 [])).length = true ∧
       hexDecodeNode ((splitOnChar ':' s).getD 1 []) =
         (authTagBytes (usedKeyBytes envKey)
           (hexDecodeNode ((splitOnChar ':' s).getD 0 []))
           (hexDecodeNode ((splitOnChar ':' s).getD 2 []))).take
             (hexDecodeNode ((splitOnChar ':' s).getD 1 [])).length ∧
       pt = xorStream (usedKeyBytes envKey)
              (hexDecodeNode ((splitOnChar ':' s).getD 0 []))
              (hexDecodeNode ((splitOnChar ':' s).getD 2 []))) := by
  constructor
  · intro h
    unfold vaultDecrypt
    rw [if_pos h]
  · intro pt h
    unfold vaultDecrypt at h
    by_cases h1 : (splitOnChar ':' s).length ≠ 3
    · rw [if_pos h1] at h; exact absurd h (by simp)
    · rw [if_neg h1] at h
      by_cases h2 : (usedKeyBytes envKey).length ≠ 32
      · rw [if_pos h2] at h; exact absurd h (by simp)
      · rw [if_neg h2] at h
        by_cases h3 : (hexDecodeNode ((splitOnChar ':' s).getD 0 [])).length = 0
        · rw [if_pos h3] at h; exact absurd h (by simp)
        · rw [if_neg h3] at h
          by_cases h4 : (!gcmTagLengthOk
              (hexDecodeNode ((splitOnChar ':' s).getD 1 [])).length) = true
          · rw [if_pos h4] at h; exact absurd h (by simp)
          · rw [if_neg h4] at h
            by_cases h5 : hexDecodeNode ((splitOnChar ':' s).getD 1 []) =
                (authTagBytes (usedKeyBytes envKey)
                  (hexDecodeNode ((splitOnChar ':' s).getD 0 []))
                  (hexDecodeNode ((splitOnChar ':' s).getD 2 []))).take
                    (hexDecodeNode ((splitOnChar ':' s).getD 1 [])).length
            · rw [if_pos h5] at h
              refine ⟨by omega, ?_, h5, ?_⟩
              · simpa using h4
              · exact (Except.ok.injEq _ _).mp h.symm
            · rw [if_neg h5] at h; exact absurd h (by simp)

/-- Witness for `decrypt_rejects_malformed`: a string with no separator
at all is rejected. -/
theorem decrypt_rejects_malformed_witness :
    vaultDecrypt none "not-an-envelope".toList = .error "Failed to decrypt data" :=
  (decrypt_rejects_malformed none "not-an-envelope".toList).1 (by decide)

/-! ## Aggregation lemmas -/

/-- Keys of the grouping map after inserting one record: unchanged when
the key is already present, appended otherwise. -/
theorem insertGrouped_map_fst (k : Nat) (r : HistRecord)
    (ps : List (Nat × List HistRecord)) :
    (insertGrouped k r ps).map Prod.fst =
      if k ∈ ps.map Prod.fst then ps.map Prod.fst else ps.map Prod.fst ++ [k] := by
  induction ps with
  | nil => simp [insertGrouped]
  | cons q qs ih =>
      obtain ⟨k', rs⟩ := q
      by_cases h : k' = k
      · subst h
        simp [insertGrouped]
      · simp only [insertGrouped, if_neg h, List.map_cons, ih, List.mem_cons]
        by_cases hk : k ∈ qs.map Prod.fst
        · rw [if_pos hk, if_pos (Or.inr hk)]
        · have hcond : ¬(k = k' ∨ k ∈ qs.map Prod.fst) := by
            rintro (h1 | h2)
            · exact h h1.symm
            · exact hk h2
          rw [if_neg hk, if_neg hcond, List.cons_append]

/-- Case analysis for membership in the grouping map after an
insertion (assuming, as the grouping fold maintains, that keys are
unique): an untouched bucket with a different key, a fresh singleton
bucket, or the existing bucket of that key with the record appended. -/
theorem mem_insertGrouped (k : Nat) (r : HistRecord)
    (ps : List (Nat × List HistRecord)) (hnd : (ps.map Prod.fst).Nodup) :
    ∀ p ∈ insertGrouped k r ps,
      (p ∈ ps ∧ p.1 ≠ k) ∨
      (k ∉ ps.map Prod.fst ∧ p = (k, [r])) ∨
      (∃ rs, (k, rs) ∈ ps ∧ p = (k, rs ++ [r])) := by
  induction ps with
  | nil =>
      intro p hp
      simp only [insertGrouped, List.mem_singleton] at hp
      exact Or.inr (Or.inl ⟨by simp, hp⟩)
  | cons q qs ih =>
      obtain ⟨k', rs⟩ := q
      obtain ⟨hnd1, hnd2⟩ := List.nodup_cons.mp hnd
      intro p hp
      by_cases h : k' = k
      · subst h
        have hp2 : p = (k', rs ++ [r]) ∨ p ∈ qs := by
          simpa [insertGrouped] using hp
        rcases hp2 with rfl | hp2
        · exact Or.inr (Or.inr ⟨rs, List.mem_cons_self _ _, rfl⟩)
        · have hfst : p.1 ∈ qs.map Prod.fst := List.mem_map_of_mem Prod.fst hp2
          exact Or.inl ⟨List.mem_cons_of_mem _ hp2, fun he => hnd1 (he ▸ hfst)⟩
      · simp only [insertGrouped, if_neg h, List.mem_cons] at hp
        rcases hp with rfl | hp
        · exact Or.inl ⟨List.mem_cons_self _ _, h⟩
        · rcases ih hnd2 p hp with ⟨hm, hne⟩ | ⟨hnm, he⟩ | ⟨rs', hm, he⟩
          · exact Or.inl ⟨List.mem_cons_of_mem _ hm, hne⟩
          · refine Or.inr (Or.inl ⟨?_, he⟩)
            simp only [List.map_cons, List.mem_cons]
            rintro (h1 | h2)
            · exact h h1.symm
            · exact hnm h2
          · exact Or.inr (Or.inr ⟨rs', List.mem_cons_of_mem _ hm, he⟩)

/-- Invariants of the grouping `Map` of `groupDataByGranularity`: bucket
keys are unique, a key occurs iff some record falls in that bucket, and
each bucket holds exactly the records of its key, in input order. -/
theorem groupPairs_spec (g : Granularity) (data : List HistRecord) :
    ((groupPairs g data).map Prod.fst).Nodup ∧
    (∀ n, n ∈ (groupPairs g data).map Prod.fst ↔
       n ∈ data.map (fun r => bucketKey g r.collectedAt)) ∧
    (∀ p ∈ groupPairs g data,
       p.2 = data.filter (fun r => bucketKey g r.collectedAt = p.1)) := by
  induction data using List.reverseRecOn with
  | nil => exact ⟨by simp [groupPairs], by simp [groupPairs], by simp [groupPairs]⟩
  | append_singleton l r ih =>
      obtain ⟨ihnd, ihmem, ihb⟩ := ih
      have hstep : groupPairs g (l ++ [r]) =
          insertGrouped (bucketKey g r.collectedAt) r (groupPairs g l) := by
        simp [groupPairs, List.foldl_append]
      refine ⟨?_, ?_, ?_⟩
      · rw [hstep, insertGrouped_map_fst]
        by_cases hkin : bucketKey g r.collectedAt ∈ (groupPairs g l).map Prod.fst
        · rw [if_pos hkin]; exact ihnd
        · rw [if_neg hkin]
          simp [List.nodup_append, ihnd, hkin]
      · intro n
        rw [hstep, insertGrouped_map_fst]
        by_cases hkin : bucketKey g r.collectedAt ∈ (groupPairs g l).map Prod.fst
        · rw [if_pos hkin]
          simp only [List.map_append, List.map_cons, List.map_nil, List.mem_append,
            List.mem_singleton]
          constructor
          · intro hn; exact Or.inl ((ihmem n).mp hn)
          · rintro (hn | rfl)
            · exact (ihmem n).mpr hn
            · exact hkin
        · rw [if_neg hkin]
          simp only [List.map_append, List.map_cons, List.map_nil, List.mem_append,
            List.mem_singleton]
          constructor
          · rintro (hn | rfl)
            · exact Or.inl ((ihmem n).mp hn)
            · exact Or.inr rfl
          · rintro (hn | rfl)
            · exact Or.inl ((ihmem n).mpr hn)
            · exact Or.inr rfl
      · intro p hp
        rw [hstep] at hp
        rcases mem_insertGrouped (bucketKey g r.collectedAt) r (groupPairs g l)
            ihnd p hp with ⟨hm, hne⟩ | ⟨hnm, rfl⟩ | ⟨rs, hm, rfl⟩
        · rw [ihb p hm, List.filter_append]
          have hone : List.filter (fun x => decide (bucketKey g x.collectedAt = p.1)) [r]
              = [] := by
            simp [List.filter_singleton, hne.symm]
          rw [hone, List.append_nil]
        · have hknotin : bucketKey g r.collectedAt ∉
              l.map (fun x => bucketKey g x.collectedAt) :=
            fun hc => hnm ((ihmem _).mpr hc)
          have hfl : List.filter
              (fun x => decide (bucketKey g x.collectedAt = bucketKey g r.collectedAt)) l
              = [] := by
            rw [List.filter_eq_nil_iff]
            intro x hx
            simp only [decide_eq_true_eq]
            exact fun hc => hknotin (hc ▸ List.mem_map_of_mem _ hx)
          show [r] = List.filter
            (fun x => decide (bucketKey g x.collectedAt = bucketKey g r.collectedAt))
            (l ++ [r])
          rw [List.filter_append, hfl, List.nil_append]
          simp [List.filter_singleton]
        · have hrs : rs = List.filter
              (fun x => decide (bucketKey g x.collectedAt = bucketKey g r.collectedAt)) l :=
            ihb (bucketKey g r.collectedAt, rs) hm
          show rs ++ [r] = List.filter
            (fun x => decide (bucketKey g x.collectedAt = bucketKey g r.collectedAt))
            (l ++ [r])
          rw [List.filter_append, ← hrs]
          simp [List.filter_singleton]

/-- `insertLe` preserves sortedness by a `Nat` measure. -/
theorem insertLe_pairwise {α : Type} (f : α → Nat) (a : α) (l : List α)
    (h : List.Pairwise (fun x y => f x ≤ f y) l) :
    List.Pairwise (fun x y => f x ≤ f y)
      (insertLe (fun x y => decide (f x ≤ f y)) a l) := by
  induction l with
  | nil => simp [insertLe]
  | cons b bs ih =>
      obtain ⟨hb, hbs⟩ := List.pairwise_cons.mp h
      by_cases hab : f a ≤ f b
      · rw [insertLe, if_pos (decide_eq_true hab)]
        refine List.pairwise_cons.mpr ⟨?_, h⟩
        intro y hy
        rcases List.mem_cons.mp hy with rfl | hybs
        · exact hab
        · exact le_trans hab (hb y hybs)
      · rw [insertLe, if_neg (by simp [hab])]
        refine List.pairwise_cons.mpr ⟨?_, ih hbs⟩
        intro y hy
        rcases List.mem_cons.mp
            ((insertLe_perm (fun x y => decide (f x ≤ f y)) a bs).mem_iff.mp hy) with
          rfl | hybs
        · exact Nat.le_of_not_le hab
        · exact hb y hybs

/-- `sortByLe` sorts by a `Nat` measure. -/
theorem sortByLe_pairwise {α : Type} (f : α → Nat) (l : List α) :
    List.Pairwise (fun x y => f x ≤ f y)
      (sortByLe (fun x y => decide (f x ≤ f y)) l) := by
  induction l with
  | nil => simp [sortByLe]
  | cons a as ih => exact insertLe_pairwise f a _ ih

/-! ## C7 — day-granularity aggregation -/

/-- C7 (counterexample): two same-UTC-day snapshots, one with
`apiUsagePercentage = 10` and one missing the field, aggregate to the
value `(10 + 0) / 2 = 5`: the missing field is coerced to 0 and the
divisor is the full bucket size, whereas the claim's mean over the
snapshots that have the field would be `10 / 1 = 10`. -/
theorem averaging_counts_missing_as_zero :
    (groupDataByGranularity c7pair .day).map
        (fun p => p.metrics .apiUsagePercentage) = [some 5] ∧
    (5 : ℚ) ≠ 10 := by
  constructor
  · norm_num [groupDataByGranularity, groupPairs, insertGrouped, bucketKey, dayKey,
      msPerDay, sortByLe, insertLe, averageRecords, c7pair, c7snap, List.foldl,
      List.foldr]
  · norm_num

/-- C7 (amended): under day granularity the output has exactly one
point per non-empty UTC-day bucket (bucket keys are unique and occur iff
some snapshot falls on that day), every numeric field of a point is the
sum of that field over **all** snapshots of the bucket — missing values
coerced to 0 — divided by the bucket size, and the output is ordered
ascending by bucket key; in particular 3 same-UTC-day snapshots with
values [10, 20, 30] yield exactly one point with value 20. -/
theorem groupDay_zero_coerced_means (data : List HistRecord) :
    ((groupDataByGranularity data .day).map (fun p => p.collectedAt)).Nodup ∧
    (∀ n, n ∈ (groupDataByGranularity data .day).map (fun p => p.collectedAt) ↔
       n ∈ data.map (fun r => dayKey r.collectedAt)) ∧
    (∀ p ∈ groupDataByGranularity data .day, ∀ f,
       p.metrics f = some
         (((data.filter (fun r => dayKey r.collectedAt = p.collectedAt)).map
             (fun r => (r.metrics f).getD 0)).sum /
          ((data.filter (fun r => dayKey r.collectedAt = p.collectedAt)).length : ℚ))) ∧
    List.Pairwise (fun a b => a.collectedAt ≤ b.collectedAt)
      (groupDataByGranularity data .day) ∧
    (groupDataByGranularity c7triple .day).map
      (fun p => p.metrics .apiUsagePercentage) = [some 20] := by
  obtain ⟨hnd, hmem, hb⟩ := groupPairs_spec .day data
  have hout : groupDataByGranularity data .day =
      sortByLe (fun a b => decide (a.collectedAt ≤ b.collectedAt))
        ((groupPairs .day data).map (fun p => averageRecords p.2 p.1)) := rfl
  have hperm := sortByLe_perm (fun a b => decide (a.collectedAt ≤ b.collectedAt))
    ((groupPairs .day data).map (fun p => averageRecords p.2 p.1))
  have hkeys : List.Perm
      ((groupDataByGranularity data .day).map (fun p => p.collectedAt))
      ((groupPairs .day data).map Prod.fst) := by
    rw [hout]
    have h2 := hperm.map (fun p => p.collectedAt)
    simpa [List.map_map, Function.comp, averageRecords] using h2
  refine ⟨?_, ?_, ?_, ?_, ?_⟩
  · exact hkeys.nodup_iff.mpr hnd
  · intro n
    exact (hkeys.mem_iff).trans (hmem n)
  · intro p hp f
    rw [hout] at hp
    rcases List.mem_map.mp (hperm.mem_iff.mp hp) with ⟨q, hq, rfl⟩
    have hq2 := hb q hq
    show some ((q.2.map (fun r => (r.metrics f).getD 0)).sum / (q.2.length : ℚ)) = _
    rw [hq2]
    rfl
  · rw [hout]
    exact sortByLe_pairwise (fun p => p.collectedAt)
      ((groupPairs .day data).map (fun p => averageRecords p.2 p.1))
  · norm_num [groupDataByGranularity, groupPairs, insertGrouped, bucketKey, dayKey,
      msPerDay, sortByLe, insertLe, averageRecords, c7triple, c7snap, List.foldl,
      List.foldr]

/-- Witness for `groupDay_zero_coerced_means`: the single aggregated
point of `c7triple` carries the zero-coerced mean of its bucket. -/
theorem groupDay_zero_coerced_means_witness :
    c7point.metrics MetricField.apiUsagePercentage =
      some (((c7triple.filter
            (fun r => dayKey r.collectedAt = c7point.collectedAt)).map
              (fun r => (r.metrics MetricField.apiUsagePercentage).getD 0)).sum /
          ((c7triple.filter
            (fun r => dayKey r.collectedAt = c7point.collectedAt)).length : ℚ)) := by
  have hm : c7point ∈ groupDataByGranularity c7triple .day := by
    rw [show groupDataByGranularity c7triple .day = [c7point] from rfl]
    exact List.mem_cons_self _ _
  exact (groupDay_zero_coerced_means c7triple).2.2.1 c7point hm
    MetricField.apiUsagePercentage

/-! ## C8 — trend analysis -/

/-- The code's growth-rate computation on two present numeric values
with a non-negative final value agrees with the spec's formula. -/
theorem calculateGrowthRate_some (a b : ℚ) (hb : 0 ≤ b) :
    calculateGrowthRate (some a) (some b) = some (specGrowthRate a b) := by
  unfold calculateGrowthRate specGrowthRate
  simp only [Option.getD_some]
  by_cases h1 : a = 0 ∧ b = 0
  · rw [if_pos h1, if_pos h1]
  · rw [if_neg h1, if_neg h1]
    by_cases h2 : a = 0
    · rw [if_pos h2, if_pos h2]
      have hbpos : 0 < b := lt_of_le_of_ne hb (fun he => h1 ⟨h2, he.symm⟩)
      rw [if_pos hbpos]
    · rw [if_neg h2, if_neg h2]

/-- C8: when even the fallback series has fewer than 2 points, every
tracked metric is `insufficient_data` with growth rate 0; otherwise,
reading the first and last point of the analysed series, each metric's
growth rate is `(last − first) / first × 100` with the `first = 0`
special cases (0 when both are 0, 100 when the last is positive), and
the classification is `stable` when `|growthRate| < 5`, else by sign. -/
theorem getTrendAnalysis_spec (store : List HistRecord) (now days : Nat) :
    ((trendSeries store now days).length < 2 →
       ∀ f, (getTrendAnalysis store now days).trend f = .insufficientData ∧
            (getTrendAnalysis store now days).growthRate f = some 0) ∧
    (∀ f a b, 2 ≤ (trendSeries store now days).length →
       ((trendSeries store now days).headD defaultRecord).metrics (pctMetric f) =
         some a →
       ((trendSeries store now days).getLastD defaultRecord).metrics (pctMetric f) =
         some b →
       0 ≤ b →
       (getTrendAnalysis store now days).growthRate f = some (specGrowthRate a b) ∧
       (getTrendAnalysis store now days).trend f = specTrend (specGrowthRate a b)) := by
  constructor
  · intro h f
    simp only [getTrendAnalysis]
    rw [if_pos h]
    exact ⟨rfl, rfl⟩
  · intro f a b hlen ha hb hbnn
    have hnl : ¬(trendSeries store now days).length < 2 := not_lt.mpr hlen
    simp only [getTrendAnalysis]
    rw [if_neg hnl]
    constructor
    · show calculateGrowthRate
          (((trendSeries store now days).headD defaultRecord).metrics (pctMetric f))
          (((trendSeries store now days).getLastD defaultRecord).metrics (pctMetric f)) =
        some (specGrowthRate a b)
      rw [ha, hb]
      exact calculateGrowthRate_some a b hbnn
    · show determineTrend (calculateGrowthRate
          (((trendSeries store now days).headD defaultRecord).metrics (pctMetric f))
          (((trendSeries store now days).getLastD defaultRecord).metrics (pctMetric f))) =
        specTrend (specGrowthRate a b)
      rw [ha, hb, calculateGrowthRate_some a b hbnn]
      rfl

/-- Witness for `getTrendAnalysis_spec`: over `c8store` (values 50
then 75 on the hour-fallback series) the api metric reports growth
rate 50 and classification `increasing`. -/
theorem getTrendAnalysis_spec_witness :
    (getTrendAnalysis c8store 7200000 30).growthRate .api = some 50 ∧
    (getTrendAnalysis c8store 7200000 30).trend .api = .increasing := by
  have h := (getTrendAnalysis_spec c8store 7200000 30).2 .api 50 75
    (by decide) (by decide) (by decide) (by decide)
  constructor
  · rw [h.1]
    norm_num [specGrowthRate]
  · rw [h.2]
    norm_num [specGrowthRate, specTrend]

end ForceMonitor
